import Mathlib

/-!
Verification development for the user-program system-call layer of the
qbaula/project2 kernel (Pintos userprog).  The repository ships only the
interface header src/userprog/syscall.h; the implementation
(syscall.c / process.c) is not in the source tree, so every operation
below is modelled from the specification text (spec.md) and the contracts
stated in the header comments.
-/

namespace Pintos

/-- Modelled from the spec: an open-file object bound in a DescriptorTable
(spec section 3, DescriptorTable).  The underlying file system is out of
scope; a file is modelled by its name and fixed length, and the object
carries its own seek position (independent positions per open). -/
structure OpenFile where
  name : String
  len : Nat
  pos : Nat
deriving DecidableEq

/-- Modelled from the spec: ChildSlot, the parent-side record of one child
it spawned (spec section 3).  Captured exit status is valid iff
terminated; the waited flag is set when the parent has consumed this
child via wait. -/
structure ChildSlot where
  pid : Nat
  terminated : Bool
  status : Int
  waited : Bool
deriving DecidableEq

/-- Modelled from the spec: ProcessRecord (spec section 3): pid, ChildSlot
collection, descriptor table (handles are signed integers, keys always
at least 2), the running-executable handle flag, liveness, and the exit
status field (well defined only once terminated). -/
structure ProcessRecord where
  pid : Nat
  children : List ChildSlot
  fds : List (Int × OpenFile)
  execOpen : Bool
  alive : Bool
  exitStatus : Int
deriving DecidableEq

/-- Modelled from the spec: kernel-wide state: the process table, the
fresh-pid counter, and the (out of scope) file system as a map from file
name to length. -/
structure Kernel where
  procs : List ProcessRecord
  nextPid : Nat
  fs : List (String × Nat)
deriving DecidableEq

/-- Result of a wait system call: the caller either blocks (child still
alive) or the call completes with a return value. -/
inductive WaitResult where
  | blocked : WaitResult
  | ret : Int → WaitResult
deriving DecidableEq

/-- Look up a ProcessRecord by pid in the kernel-wide process table
(spec section 9, weak parent lookup through a kernel-wide table). -/
def getProc (s : Kernel) (p : Nat) : Option ProcessRecord :=
  s.procs.find? (fun pr => pr.pid == p)

/-- Apply an update to every record with the given pid. -/
def updateProc (s : Kernel) (p : Nat) (f : ProcessRecord → ProcessRecord) : Kernel :=
  { s with procs := s.procs.map (fun pr => if pr.pid == p then f pr else pr) }

/-- The ChildSlot with the given child pid in the collection of parent p,
if any. -/
def childSlot (s : Kernel) (p c : Nat) : Option ChildSlot :=
  match getProc s p with
  | none => none
  | some pr => pr.children.find? (fun cs => cs.pid == c)

/-- The open-file object bound to handle fd in the descriptor table of
process p (DescriptorTable lookup, spec section 4.4); handles 0 and 1 are
never keys, so they return none here. -/
def fdLookup (s : Kernel) (p : Nat) (fd : Int) : Option OpenFile :=
  match getProc s p with
  | none => none
  | some pr => (pr.fds.find? (fun e => e.1 == fd)).map (fun e => e.2)

/- General list lemmas used to reason about lookups through map and
filter updates of the process table, child collections and descriptor
tables. -/

theorem find?_map_pres {α : Type} (f : α → α) (p : α → Bool)
    (h : ∀ a, p (f a) = p a) (l : List α) :
    (l.map f).find? p = (l.find? p).map f := by
  induction l with
  | nil => rfl
  | cons a t ih =>
    by_cases hp : p a = true
    · simp [List.find?, h, hp]
    · simp only [Bool.not_eq_true] at hp
      simp [List.find?, h, hp, ih]

theorem find?_filter_imp {α : Type} (p q : α → Bool)
    (h : ∀ a, p a = true → q a = true) (l : List α) :
    (l.filter q).find? p = l.find? p := by
  induction l with
  | nil => rfl
  | cons a t ih =>
    by_cases hq : q a = true
    · by_cases hp : p a = true
      · simp [List.filter, List.find?, hq, hp]
      · simp only [Bool.not_eq_true] at hp
        simp [List.filter, List.find?, hq, hp, ih]
    · have hp : p a = false := by
        cases hpa : p a with
        | false => rfl
        | true => exact absurd (h a hpa) hq
      simp only [Bool.not_eq_true] at hq
      simp [List.filter, List.find?, hq, hp, ih]

theorem find?_filter_neg {α : Type} (p : α → Bool) (l : List α) :
    (l.filter (fun a => !(p a))).find? p = none := by
  induction l with
  | nil => rfl
  | cons a t ih =>
    by_cases hp : p a = true
    · simp [List.filter, hp, ih]
    · simp only [Bool.not_eq_true] at hp
      simp [List.filter, List.find?, hp, ih]

theorem find?_append_some {α : Type} (p : α → Bool) (l1 l2 : List α) (a : α)
    (h : l1.find? p = some a) : (l1 ++ l2).find? p = some a := by
  induction l1 with
  | nil => simp [List.find?] at h
  | cons x t ih =>
    rw [List.cons_append]
    by_cases hp : p x = true
    · rw [List.find?_cons_of_pos _ hp] at h ⊢
      exact h
    · rw [List.find?_cons_of_neg _ hp] at h ⊢
      exact ih h

theorem getProc_updateProc_self (s : Kernel) (p : Nat)
    (f : ProcessRecord → ProcessRecord) (hpid : ∀ r, (f r).pid = r.pid)
    (pr : ProcessRecord) (h : getProc s p = some pr) :
    getProc (updateProc s p f) p = some (f pr) := by
  unfold getProc updateProc at *
  rw [find?_map_pres (fun r => if r.pid == p then f r else r)
      (fun r => r.pid == p)
      (by intro a; by_cases ha : a.pid = p <;> simp [ha, hpid])]
  rw [h]
  have hp : pr.pid = p := by
    have := List.find?_some h
    simpa using this
  simp [hp]

theorem getProc_updateProc_other (s : Kernel) (p q : Nat) (hne : q ≠ p)
    (f : ProcessRecord → ProcessRecord) (hpid : ∀ r, (f r).pid = r.pid) :
    getProc (updateProc s p f) q = getProc s q := by
  unfold getProc updateProc
  rw [find?_map_pres (fun r => if r.pid == p then f r else r)
      (fun r => r.pid == q)
      (by intro a; by_cases ha : a.pid = p <;> simp [ha, hpid])]
  cases h : s.procs.find? (fun r => r.pid == q) with
  | none => rfl
  | some pr =>
    have hp : pr.pid = q := by
      have := List.find?_some h
      simpa using this
    simp [hp, hne]

/-- Modelled from the spec: DescriptorTable install allocates the smallest
unused handle that is at least 2 (spec section 4.4); the next-descriptor
floor of 2 keeps handles 0 and 1 reserved (spec section 3).  The search
range used.length + 3 always contains a free candidate by pigeonhole. -/
def smallestFreeFd (used : List Int) : Int :=
  match (List.range (used.length + 3)).find?
      (fun k => decide (2 ≤ k) && !(used.contains (Int.ofNat k))) with
  | some k => Int.ofNat k
  | none => 2

theorem exists_free_fd (used : List Int) :
    ∃ k ∈ List.range (used.length + 3),
      (decide (2 ≤ k) && !(used.contains (Int.ofNat k))) = true := by
  by_contra hcon
  push_neg at hcon
  have hmem : ∀ k : Nat, 2 ≤ k → k < used.length + 3 → (Int.ofNat k) ∈ used := by
    intro k h2 hk
    have h := hcon k (List.mem_range.mpr hk)
    by_cases hc : Int.ofNat k ∈ used
    · exact hc
    · exfalso
      apply h
      simp [h2]
      exact hc
  have hsub : (Finset.Ico 2 (used.length + 3)).image (Int.ofNat) ⊆ used.toFinset := by
    intro x hx
    rcases Finset.mem_image.mp hx with ⟨k, hk, rfl⟩
    rcases Finset.mem_Ico.mp hk with ⟨h2, hlt⟩
    exact List.mem_toFinset.mpr (hmem k h2 hlt)
  have hcard := Finset.card_le_card hsub
  rw [Finset.card_image_of_injective _ (fun a b hab => by
    exact Int.ofNat.inj hab)] at hcard
  rw [Nat.card_Ico] at hcard
  have hlen := List.toFinset_card_le used
  omega

theorem smallestFreeFd_spec (used : List Int) :
    2 ≤ smallestFreeFd used ∧ smallestFreeFd used ∉ used := by
  obtain ⟨k, hk, hpred⟩ := exists_free_fd used
  cases hfind : (List.range (used.length + 3)).find?
      (fun k => decide (2 ≤ k) && !(used.contains (Int.ofNat k))) with
  | none =>
    exfalso
    exact (List.find?_eq_none.mp hfind k hk) hpred
  | some n =>
    have hval : smallestFreeFd used = Int.ofNat n := by
      unfold smallestFreeFd
      rw [hfind]
    have hsome := List.find?_some hfind
    simp only [Bool.and_eq_true, decide_eq_true_eq, Bool.not_eq_true] at hsome
    rw [hval]
    constructor
    · have h1 := hsome.1
      have h2 : Int.ofNat n = (n : Int) := rfl
      rw [h2]
      omega
    · intro hmem
      have hct : used.contains (Int.ofNat n) = true := by
        simpa using hmem
      rw [hct] at hsome
      simp at hsome

/-- Modelled from the spec: marking step of termination (spec section 4.5,
step 5): the ChildSlot for the dying child, in any collection holding it,
moves to state terminated with the captured exit status; the waited flag
is untouched. -/
def slotMark (c : Nat) (st : Int) (cs : ChildSlot) : ChildSlot :=
  if cs.pid == c then { cs with terminated := true, status := st } else cs

/-- Modelled from the spec: per-record effect of the termination of
process c (spec section 4.5, Termination): the dying record closes every
file descriptor, releases the running-executable handle, tears down every
owned ChildSlot and records its exit status; every other record has its
ChildSlot for c (if any) marked terminated with the captured status. -/
def termMap (c : Nat) (st : Int) (pr : ProcessRecord) : ProcessRecord :=
  if pr.pid == c then
    { pr with fds := [], execOpen := false, children := [], alive := false,
              exitStatus := st }
  else
    { pr with children := pr.children.map (slotMark c st) }

/-- Modelled from the spec: termination of process c with status st,
common to exit and kernel kill (spec section 4.5).  The console
termination line is out of scope and not modelled. -/
def terminate (s : Kernel) (c : Nat) (st : Int) : Kernel :=
  { s with procs := s.procs.map (termMap c st) }

/-- Modelled from the spec: the exit system call (syscall.h exit, spec
section 4.5 Termination): the process terminates with the status it
passed. -/
def exit (s : Kernel) (c : Nat) (status : Int) : Kernel :=
  terminate s c status

/-- Modelled from the spec: kernel kill of process c: identical to exit
except the status recorded is -1 (spec section 4.5). -/
def kill (s : Kernel) (c : Nat) : Kernel :=
  terminate s c (-1)

/-- Modelled from the spec: the exec system call (syscall.h exec, spec
section 4.5 Creation).  The loader is out of scope, so the load outcome
is a parameter.  On loaded-ok the parent gains a fresh ChildSlot and the
child record enters the process table with its executable handle held,
and the child pid is returned.  On load-failed the ChildSlot created in
step 1 is removed again and the failed child record self-reclaims, so the
net state change is only the consumed pid, and -1 is returned. -/
def exec (s : Kernel) (p : Nat) (loadOk : Bool) : Kernel × Int :=
  let c := s.nextPid
  if loadOk then
    let s1 := updateProc s p
      (fun q => { q with children := ⟨c, false, 0, false⟩ :: q.children })
    ({ s1 with procs := s1.procs ++ [⟨c, [], [], true, true, 0⟩],
               nextPid := c + 1 }, Int.ofNat c)
  else
    ({ s with nextPid := c + 1 }, -1)

/-- Modelled from the spec: state change of a completing wait (spec
section 4.5 Wait, last step): the ChildSlot for c is destroyed in the
collection of parent p, and the terminated child record is finally
reclaimed from the process table. -/
def reapState (s : Kernel) (p c : Nat) : Kernel :=
  let s1 := updateProc s p
    (fun q => { q with children := q.children.filter (fun e => !(e.pid == c)) })
  { s1 with procs := s1.procs.filter (fun r => !(r.pid == c)) }

/-- Modelled from the spec: the wait system call (syscall.h wait, spec
section 4.5 Wait).  No ChildSlot with the given pid, or one already
waited on: fail immediately with -1.  Child not yet terminated: the
caller blocks.  Otherwise the captured status is returned, the ChildSlot
is destroyed and the child record is finally reclaimed. -/
def wait (s : Kernel) (p c : Nat) : Kernel × WaitResult :=
  match getProc s p with
  | none => (s, .ret (-1))
  | some pr =>
    match pr.children.find? (fun cs => cs.pid == c) with
    | none => (s, .ret (-1))
    | some cs =>
      if cs.waited then (s, .ret (-1))
      else if cs.terminated then (reapState s p c, .ret cs.status)
      else (s, .blocked)

/-- Modelled from the spec: the open system call (syscall.h open, spec
section 4.6): if the file system has no such file, return -1; otherwise
install a fresh open-file object at position 0 under the smallest unused
handle that is at least 2 and return that handle.  The user-memory probe
and the FileSubsystemGuard bracket are out of scope. -/
def openCall (s : Kernel) (p : Nat) (name : String) : Kernel × Int :=
  match s.fs.find? (fun e => e.1 == name) with
  | none => (s, -1)
  | some f =>
    match getProc s p with
    | none => (s, -1)
    | some pr =>
      let fd := smallestFreeFd (pr.fds.map (fun e => e.1))
      (updateProc s p
        (fun q => { q with fds := (fd, ⟨name, f.2, 0⟩) :: q.fds }), fd)

/-- Modelled from the spec: the read system call (syscall.h read, spec
section 4.6), after the writability probe of the buffer has passed.
Handle 0 reads size bytes from the keyboard and returns size; handle 1
returns -1; otherwise a descriptor-table lookup, returning -1 when the
handle is unbound, and otherwise the delegated file read, which yields
min size (len - pos) bytes (0 at end of file) and advances the
position. -/
def read (s : Kernel) (p : Nat) (fd : Int) (size : Nat) : Kernel × Int :=
  if fd == 0 then (s, Int.ofNat size)
  else if fd == 1 then (s, -1)
  else
    match getProc s p with
    | none => (s, -1)
    | some pr =>
      match pr.fds.find? (fun e => e.1 == fd) with
      | none => (s, -1)
      | some e =>
        let n := min size (e.2.len - e.2.pos)
        (updateProc s p (fun q =>
          { q with fds := q.fds.map (fun x =>
              if x.1 == fd then (x.1, { x.2 with pos := x.2.pos + n }) else x) }),
         Int.ofNat n)

/-- Modelled from the spec: the seek system call (syscall.h seek, spec
section 4.6): descriptor-table lookup, then set the position of that open
file; past-EOF positions are not an error; unbound handles are a
no-op. -/
def seek (s : Kernel) (p : Nat) (fd : Int) (position : Nat) : Kernel :=
  match fdLookup s p fd with
  | none => s
  | some _ =>
    updateProc s p (fun q =>
      { q with fds := q.fds.map (fun x =>
          if x.1 == fd then (x.1, { x.2 with pos := position }) else x) })

/-- Modelled from the spec: the tell system call (syscall.h tell, spec
section 4.6): descriptor-table lookup, then the position of that open
file; -1 is the failure sentinel when the handle is unbound (spec
section 6). -/
def tell (s : Kernel) (p : Nat) (fd : Int) : Int :=
  match fdLookup s p fd with
  | none => -1
  | some f => Int.ofNat f.pos

/-- Modelled from the spec: the close system call (syscall.h close, spec
sections 4.4 and 4.6): release the binding, closing the underlying file;
if fd is not bound (handles 0 and 1 never are), a silent no-op. -/
def close (s : Kernel) (p : Nat) (fd : Int) : Kernel :=
  match fdLookup s p fd with
  | none => s
  | some _ =>
    updateProc s p (fun q =>
      { q with fds := q.fds.filter (fun x => !(x.1 == fd)) })

/- Lemmas about the effect of termination and reaping on lookups. -/

theorem getProc_pid (s : Kernel) (q : Nat) (pr : ProcessRecord)
    (h : getProc s q = some pr) : pr.pid = q := by
  unfold getProc at h
  simpa using List.find?_some h

theorem slotMark_pid (c : Nat) (st : Int) (cs : ChildSlot) :
    (slotMark c st cs).pid = cs.pid := by
  unfold slotMark
  by_cases h : cs.pid = c <;> simp [h]

theorem termMap_pid (c : Nat) (st : Int) (pr : ProcessRecord) :
    (termMap c st pr).pid = pr.pid := by
  unfold termMap
  by_cases h : pr.pid = c <;> simp [h]

theorem getProc_terminate (s : Kernel) (c : Nat) (st : Int) (q : Nat) :
    getProc (terminate s c st) q = (getProc s q).map (termMap c st) := by
  unfold getProc terminate
  exact find?_map_pres _ _ (fun a => by simp [termMap_pid]) _

theorem getProc_filterProcs (s : Kernel) (c q : Nat) (hne : q ≠ c) :
    getProc { s with procs := s.procs.filter (fun r => !(r.pid == c)) } q
      = getProc s q := by
  unfold getProc
  exact find?_filter_imp _ _ (fun a ha => by
    have hap : a.pid = q := by simpa using ha
    simp [hap, hne]) _

theorem getProc_reapState_parent (s : Kernel) (p c : Nat)
    (pr : ProcessRecord) (hpc : p ≠ c) (hg : getProc s p = some pr) :
    getProc (reapState s p c) p =
      some { pr with children := pr.children.filter (fun e => !(e.pid == c)) } := by
  unfold reapState
  rw [getProc_filterProcs _ _ _ hpc]
  exact getProc_updateProc_self s p
    (fun q => { q with children := q.children.filter (fun e => !(e.pid == c)) })
    (fun r => rfl) pr hg

/-- Shared lemma: a wait call with no ChildSlot for the pid fails
immediately with -1 and leaves the state unchanged. -/
theorem wait_no_slot (s : Kernel) (p c : Nat)
    (h : childSlot s p c = none) : wait s p c = (s, WaitResult.ret (-1)) := by
  unfold childSlot at h
  cases hg : getProc s p with
  | none =>
    unfold wait
    rw [hg]
  | some pr =>
    rw [hg] at h
    have h2 : pr.children.find? (fun cs => cs.pid == c) = none := h
    simp only [wait, hg, h2]

/- Concrete demonstration states used by the witness theorems. -/

/-- A kernel with one process (pid 1) and no files. -/
def initK : Kernel := ⟨[⟨1, [], [], true, true, 0⟩], 2, []⟩

/-- A kernel where process 1 has the alive child 2. -/
def demoParent : Kernel :=
  ⟨[⟨1, [⟨2, false, 0, false⟩], [], true, true, 0⟩,
    ⟨2, [], [], true, true, 0⟩], 3, []⟩

/-- A kernel where the child 2 of process 1 has terminated with status 7
and has not been waited on yet. -/
def demoTerm : Kernel := ⟨[⟨1, [⟨2, true, 7, false⟩], [], true, true, 0⟩], 3, []⟩

/-- A kernel with one process and one file named a of length 10. -/
def demoFs : Kernel := ⟨[⟨1, [], [], true, true, 0⟩], 2, [("a", 10)]⟩

/-- A kernel where process 1 holds two open descriptors on the file a. -/
def demoFiles : Kernel :=
  ⟨[⟨1, [], [(2, ⟨"a", 10, 0⟩), (3, ⟨"a", 10, 4⟩)], true, true, 0⟩],
   2, [("a", 10)]⟩

/-- A kernel where descriptor 2 of process 1 is positioned at end of
file. -/
def demoEof : Kernel :=
  ⟨[⟨1, [], [(2, ⟨"a", 10, 10⟩)], true, true, 0⟩], 2, [("a", 10)]⟩

/-- C3: wait succeeds only for direct children: a pid with no ChildSlot in
the collection of the caller (a grandchild, an unrelated process, or a
nonexistent pid is never inserted there, since only a successful exec by
the caller inserts one) makes wait fail immediately with -1, leaving the
state unchanged. -/
theorem wait_only_direct_children (s : Kernel) (p c : Nat)
    (h : childSlot s p c = none) :
    wait s p c = (s, WaitResult.ret (-1)) :=
  wait_no_slot s p c h

/-- Witness for C3 at a concrete input: process 1 execs child 2, child 2
execs grandchild 3; the wait of process 1 on the grandchild pid 3 fails
with -1. -/
theorem wait_only_direct_children_witness :
    wait (exec (exec initK 1 true).1 2 true).1 1 3 =
      ((exec (exec initK 1 true).1 2 true).1, WaitResult.ret (-1)) :=
  wait_only_direct_children _ 1 3 (by decide)

/-- C5: open returns -1 on failure and otherwise a handle of at least 2;
the reserved descriptors 0 and 1 are never returned, in every reachable
state and hence over all sequences of open calls. -/
theorem open_never_returns_reserved (s : Kernel) (p : Nat) (name : String) :
    (openCall s p name).2 = -1 ∨ 2 ≤ (openCall s p name).2 := by
  unfold openCall
  cases hf : s.fs.find? (fun e => e.1 == name) with
  | none => left; rfl
  | some f =>
    cases hg : getProc s p with
    | none => left; rfl
    | some pr =>
      right
      exact (smallestFreeFd_spec (pr.fds.map (fun e => e.1))).1

/-- C9: close on a descriptor not bound in the descriptor table of the
caller (the reserved descriptors 0 and 1 included) is a silent no-op: the
whole kernel state, so in particular the descriptor table, is
unchanged. -/
theorem close_unbound_noop (s : Kernel) (p : Nat) (fd : Int)
    (h : fdLookup s p fd = none) :
    close s p fd = s := by
  unfold close
  rw [h]

/-- Witness for C9 at a concrete input: closing the reserved descriptor 0
leaves the state unchanged. -/
theorem close_unbound_noop_witness : close demoFs 1 0 = demoFs :=
  close_unbound_noop demoFs 1 0 (by decide)

/-- C8: read dispatch, once the writability probe of the buffer has
passed (the probe is out of scope of the model): descriptor 0 reads
exactly size bytes from the keyboard and returns size, descriptor 1
returns -1, and any other descriptor not bound in the descriptor table of
the caller returns -1. -/
theorem read_dispatch (s : Kernel) (p : Nat) (fd : Int) (size : Nat) :
    (read s p 0 size).2 = Int.ofNat size ∧
    (read s p 1 size).2 = -1 ∧
    (fd ≠ 0 → fd ≠ 1 → fdLookup s p fd = none → (read s p fd size).2 = -1) := by
  refine ⟨by simp [read], by simp [read], ?_⟩
  intro h0 h1 hnone
  have hb0 : (fd == 0) = false := beq_eq_false_iff_ne.mpr h0
  have hb1 : (fd == 1) = false := beq_eq_false_iff_ne.mpr h1
  unfold fdLookup at hnone
  cases hg : getProc s p with
  | none => simp [read, hb0, hb1, hg]
  | some pr =>
    rw [hg] at hnone
    have hnone2 : (pr.fds.find? (fun e => e.1 == fd)).map (fun e => e.2) = none :=
      hnone
    have hf : pr.fds.find? (fun e => e.1 == fd) = none := by
      cases hfe : pr.fds.find? (fun e => e.1 == fd) with
      | none => rfl
      | some e =>
        rw [hfe] at hnone2
        simp at hnone2
    simp [read, hb0, hb1, hg, hf]

/-- Witness for C8 at concrete inputs in a state where descriptor 3 is
unbound: read from descriptor 0 returns the requested size, from
descriptor 1 returns -1, and from the unbound descriptor 3 returns -1. -/
theorem read_dispatch_witness :
    (read demoFs 1 0 5).2 = Int.ofNat 5 ∧
    (read demoFs 1 1 5).2 = -1 ∧
    (read demoFs 1 3 5).2 = -1 := by
  have h := read_dispatch demoFs 1 3 5
  exact ⟨h.1, h.2.1, h.2.2 (by decide) (by decide) (by decide)⟩

/-- C10: a read on a bound descriptor never returns -1 (the file read
delegates min size (len - pos) bytes, a nonnegative count), and with the
position at or past end of file it returns 0; -1 is therefore reserved
for the lookup failures of C8, conditions other than end of file. -/
theorem read_eof_returns_zero (s : Kernel) (p : Nat) (fd : Int)
    (size : Nat) (f : OpenFile)
    (h0 : fd ≠ 0) (h1 : fd ≠ 1) (hf : fdLookup s p fd = some f) :
    0 ≤ (read s p fd size).2 ∧
    (f.len ≤ f.pos → (read s p fd size).2 = 0) := by
  have hb0 : (fd == 0) = false := beq_eq_false_iff_ne.mpr h0
  have hb1 : (fd == 1) = false := beq_eq_false_iff_ne.mpr h1
  unfold fdLookup at hf
  cases hg : getProc s p with
  | none => rw [hg] at hf; simp at hf
  | some pr =>
    rw [hg] at hf
    have hf2 : (pr.fds.find? (fun e => e.1 == fd)).map (fun e => e.2) = some f :=
      hf
    cases hfe : pr.fds.find? (fun e => e.1 == fd) with
    | none => rw [hfe] at hf2; simp at hf2
    | some e =>
      rw [hfe] at hf2
      have hef : e.2 = f := by simpa using hf2
      constructor
      · simp [read, hb0, hb1, hg, hfe]
      · intro hle
        have hz : e.2.len - e.2.pos = 0 := by
          rw [hef]
          omega
        simp [read, hb0, hb1, hg, hfe, hz]

/-- Witness for C10 at a concrete input: descriptor 2 is bound with the
position at end of file, and the read returns 0. -/
theorem read_eof_returns_zero_witness :
    0 ≤ (read demoEof 1 2 5).2 ∧ (read demoEof 1 2 5).2 = 0 := by
  have h := read_eof_returns_zero demoEof 1 2 5 ⟨"a", 10, 10⟩
    (by decide) (by decide) (by decide)
  exact ⟨h.1, h.2 (by decide)⟩

/-- C6: after a process terminates, by exit or by kernel kill, its record
shows every descriptor-table binding removed (the underlying files are
closed by removal, spec section 3 DescriptorTable lifecycle) and the
running-executable handle released; this holds in every state, so whether
or not any wait ever occurs and regardless of the order of parent and
child termination. -/
theorem terminate_releases_resources (s : Kernel) (p : Nat) (k : Int)
    (pr : ProcessRecord) (hp : getProc s p = some pr) :
    getProc (exit s p k) p =
      some { pr with fds := [], execOpen := false, children := [],
                     alive := false, exitStatus := k } ∧
    getProc (kill s p) p =
      some { pr with fds := [], execOpen := false, children := [],
                     alive := false, exitStatus := -1 } := by
  have hpid : pr.pid = p := getProc_pid s p pr hp
  have key : ∀ st : Int, getProc (terminate s p st) p =
      some { pr with fds := [], execOpen := false, children := [],
                     alive := false, exitStatus := st } := by
    intro st
    rw [getProc_terminate, hp]
    simp [termMap, hpid]
  exact ⟨key k, key (-1)⟩

/-- Witness for C6 at a concrete input: process 1 holds two descriptors
and its executable handle; after exit with status 5 and after a kernel
kill, its descriptor table is empty and the executable handle is
released. -/
theorem terminate_releases_resources_witness :
    getProc (exit demoFiles 1 5) 1 =
      some ⟨1, [], [], false, false, 5⟩ ∧
    getProc (kill demoFiles 1) 1 =
      some ⟨1, [], [], false, false, -1⟩ :=
  terminate_releases_resources demoFiles 1 5
    ⟨1, [], [(2, ⟨"a", 10, 0⟩), (3, ⟨"a", 10, 4⟩)], true, true, 0⟩ rfl

/-- C1: exit status fidelity and kill visibility.  For a ChildSlot of
parent p on child c not yet waited on (such a slot exists exactly when a
successful exec of p spawned c, spec section 3 invariants): after c exits
with status k a wait of p on c completes with k, after c is killed by the
kernel it completes with -1, and while c has not terminated the wait does
not complete but blocks, so a wait that completes does so after the
termination of c whichever call came first. -/
theorem wait_exit_status_fidelity (s : Kernel) (p c : Nat) (k : Int)
    (cs : ChildSlot) (hpc : p ≠ c)
    (hslot : childSlot s p c = some cs) (hw : cs.waited = false) :
    (wait (exit s c k) p c).2 = WaitResult.ret k ∧
    (wait (kill s c) p c).2 = WaitResult.ret (-1) ∧
    (cs.terminated = false → (wait s p c).2 = WaitResult.blocked) := by
  unfold childSlot at hslot
  cases hg : getProc s p with
  | none => rw [hg] at hslot; exact absurd hslot (by simp)
  | some pr =>
    rw [hg] at hslot
    have hf : pr.children.find? (fun e => e.pid == c) = some cs := hslot
    have hppid : pr.pid = p := getProc_pid s p pr hg
    have hcpid : cs.pid = c := by simpa using List.find?_some hf
    have hprc : (pr.pid == c) = false := by
      rw [hppid]
      exact beq_eq_false_iff_ne.mpr hpc
    have key : ∀ st : Int,
        (wait (terminate s c st) p c).2 = WaitResult.ret st := by
      intro st
      have hg2 : getProc (terminate s c st) p = some (termMap c st pr) := by
        rw [getProc_terminate, hg]
        rfl
      have hrec : termMap c st pr =
          { pr with children := pr.children.map (slotMark c st) } := by
        unfold termMap
        rw [hprc]
        rfl
      have hfind2 : (termMap c st pr).children.find? (fun e => e.pid == c) =
          some { cs with terminated := true, status := st } := by
        rw [hrec]
        show (pr.children.map (slotMark c st)).find? (fun e => e.pid == c) = _
        rw [find?_map_pres (slotMark c st) (fun e => e.pid == c)
            (fun a => by simp [slotMark_pid]), hf]
        show some (slotMark c st cs) = _
        unfold slotMark
        rw [show (cs.pid == c) = true from by simp [hcpid]]
        rfl
      simp only [wait, hg2, hfind2]
      simp [hw]
    refine ⟨key k, key (-1), ?_⟩
    intro hterm
    simp only [wait, hg, hf]
    simp [hw, hterm]

/-- Witness for C1 at a concrete input: process 1 has the alive unwaited
child 2; after exit of 2 with status 7 the wait of 1 on 2 returns 7,
after a kernel kill of 2 it returns -1, and before either the wait
blocks. -/
theorem wait_exit_status_fidelity_witness :
    (wait (exit demoParent 2 7) 1 2).2 = WaitResult.ret 7 ∧
    (wait (kill demoParent 2) 1 2).2 = WaitResult.ret (-1) ∧
    (wait demoParent 1 2).2 = WaitResult.blocked := by
  have h := wait_exit_status_fidelity demoParent 1 2 7 ⟨2, false, 0, false⟩
    (by decide) (by decide) (by decide)
  exact ⟨h.1, h.2.1, h.2.2 (by decide)⟩

/-- C2: at-most-once wait.  The first wait of p on c that completes
returns the captured status, destroys the ChildSlot (no slot for c is
left in the collection of p), and every subsequent wait of p on c fails
immediately with -1. -/
theorem wait_at_most_once (s : Kernel) (p c : Nat) (cs : ChildSlot)
    (hpc : p ≠ c) (hslot : childSlot s p c = some cs)
    (hw : cs.waited = false) (ht : cs.terminated = true) :
    (wait s p c).2 = WaitResult.ret cs.status ∧
    childSlot (wait s p c).1 p c = none ∧
    (wait (wait s p c).1 p c).2 = WaitResult.ret (-1) := by
  unfold childSlot at hslot
  cases hg : getProc s p with
  | none => rw [hg] at hslot; exact absurd hslot (by simp)
  | some pr =>
    rw [hg] at hslot
    have hf : pr.children.find? (fun e => e.pid == c) = some cs := hslot
    have hwait : wait s p c = (reapState s p c, WaitResult.ret cs.status) := by
      simp only [wait, hg, hf]
      simp [hw, ht]
    have hg2 : getProc (reapState s p c) p =
        some { pr with children := pr.children.filter (fun e => !(e.pid == c)) } :=
      getProc_reapState_parent s p c pr hpc hg
    have hnone : childSlot (reapState s p c) p c = none := by
      unfold childSlot
      rw [hg2]
      show (pr.children.filter (fun e => !(e.pid == c))).find?
          (fun e => e.pid == c) = none
      exact find?_filter_neg _ _
    refine ⟨by rw [hwait], ?_, ?_⟩
    · rw [hwait]
      exact hnone
    · rw [hwait]
      show (wait (reapState s p c) p c).2 = _
      rw [wait_no_slot _ _ _ hnone]

/-- Witness for C2 at a concrete input: child 2 of process 1 has
terminated with status 7; the first wait returns 7 and destroys the slot,
the second wait returns -1. -/
theorem wait_at_most_once_witness :
    (wait demoTerm 1 2).2 = WaitResult.ret 7 ∧
    childSlot (wait demoTerm 1 2).1 1 2 = none ∧
    (wait (wait demoTerm 1 2).1 1 2).2 = WaitResult.ret (-1) := by
  have h := wait_at_most_once demoTerm 1 2 ⟨2, true, 7, false⟩
    (by decide) (by decide) (by decide) (by decide)
  exact ⟨h.1, h.2.1, h.2.2⟩

/-- C4: the exec load handshake.  With loaded-ok, exec returns the fresh
child pid and a ChildSlot for it is in the collection of the parent; with
load-failed, exec returns -1, the just-created ChildSlot is removed again
so the process table is as before, and if the parent had no slot for that
pid beforehand then no later wait on the failed child is possible: it
fails with -1. -/
theorem exec_load_handshake (s : Kernel) (p : Nat) (pr : ProcessRecord)
    (hp : getProc s p = some pr) :
    (exec s p true).2 = Int.ofNat s.nextPid ∧
    childSlot (exec s p true).1 p s.nextPid =
      some ⟨s.nextPid, false, 0, false⟩ ∧
    (exec s p false).2 = -1 ∧
    (exec s p false).1.procs = s.procs ∧
    (childSlot s p s.nextPid = none →
      wait (exec s p false).1 p s.nextPid =
        ((exec s p false).1, WaitResult.ret (-1))) := by
  refine ⟨rfl, ?_, rfl, rfl, ?_⟩
  · have hgp : getProc (exec s p true).1 p =
        some { pr with children :=
          (⟨s.nextPid, false, 0, false⟩ : ChildSlot) :: pr.children } := by
      show ((updateProc s p (fun q => { q with children :=
            (⟨s.nextPid, false, 0, false⟩ : ChildSlot) :: q.children })).procs
          ++ ([⟨s.nextPid, [], [], true, true, 0⟩] : List ProcessRecord)).find?
            (fun r => r.pid == p)
        = _
      apply find?_append_some
      exact getProc_updateProc_self s p
        (fun q => { q with children :=
          (⟨s.nextPid, false, 0, false⟩ : ChildSlot) :: q.children })
        (fun r => rfl) pr hp
    unfold childSlot
    rw [hgp]
    show ((⟨s.nextPid, false, 0, false⟩ : ChildSlot) :: pr.children).find?
        (fun e => e.pid == s.nextPid) = _
    rw [List.find?_cons_of_pos _ (by simp)]
  · intro hnone
    have hnone2 : childSlot (exec s p false).1 p s.nextPid = none := hnone
    exact wait_no_slot _ _ _ hnone2

/-- Witness for C4 at a concrete input: in the initial kernel, a
loaded-ok exec by process 1 returns pid 2 with a ChildSlot installed; a
load-failed exec returns -1, leaves the process table unchanged, and the
subsequent wait on pid 2 returns -1. -/
theorem exec_load_handshake_witness :
    (exec initK 1 true).2 = Int.ofNat 2 ∧
    childSlot (exec initK 1 true).1 1 2 = some ⟨2, false, 0, false⟩ ∧
    (exec initK 1 false).2 = -1 ∧
    (exec initK 1 false).1.procs = initK.procs ∧
    wait (exec initK 1 false).1 1 2 =
      ((exec initK 1 false).1, WaitResult.ret (-1)) := by
  have h := exec_load_handshake initK 1 ⟨1, [], [], true, true, 0⟩ rfl
  exact ⟨h.1, h.2.1, h.2.2.1, h.2.2.2.1, h.2.2.2.2 (by decide)⟩

/-- Frame lemma: a seek on handle a does not change the tell of a
different handle b, in any state: positions of distinct descriptors are
independent. -/
theorem tell_seek_frame (s : Kernel) (p : Nat) (a b : Int) (k : Nat)
    (hne : (b == a) = false) :
    tell (seek s p a k) p b = tell s p b := by
  unfold seek
  cases hla : fdLookup s p a with
  | none => rfl
  | some F =>
    show tell (updateProc s p (fun q =>
        { q with fds := q.fds.map (fun x =>
            if x.1 == a then (x.1, { x.2 with pos := k }) else x) })) p b
      = tell s p b
    unfold fdLookup at hla
    cases hg : getProc s p with
    | none =>
      rw [hg] at hla
      exact Option.noConfusion hla
    | some pr =>
      have hp3 : getProc (updateProc s p (fun q =>
          { q with fds := q.fds.map (fun x =>
              if x.1 == a then (x.1, { x.2 with pos := k }) else x) })) p
          = some { pr with fds := pr.fds.map (fun x =>
              if x.1 == a then (x.1, { x.2 with pos := k }) else x) } :=
        getProc_updateProc_self s p (fun q =>
          { q with fds := q.fds.map (fun x =>
              if x.1 == a then (x.1, { x.2 with pos := k }) else x) })
          (fun r => rfl) pr hg
      have hfind : (pr.fds.map (fun x =>
            if x.1 == a then (x.1, { x.2 with pos := k }) else x)).find?
            (fun e => e.1 == b)
          = (pr.fds.find? (fun e => e.1 == b)).map (fun x =>
            if x.1 == a then (x.1, { x.2 with pos := k }) else x) :=
        find?_map_pres _ _ (fun x => by
          by_cases hx : (x.1 == a) = true <;> simp [hx]) pr.fds
      simp only [tell, fdLookup, hp3, hg, hfind]
      cases hfb : pr.fds.find? (fun e => e.1 == b) with
      | none => rfl
      | some e =>
        have heb : e.1 = b := by simpa using List.find?_some hfb
        have hea : e.1 ≠ a := by
          rw [heb]
          simpa using hne
        simp [hea]

/-- A successful open returns a handle different from every handle
already bound in the descriptor table of the caller. -/
theorem openCall_success_ne (s : Kernel) (p : Nat) (name : String)
    (f : String × Nat) (pr : ProcessRecord)
    (hfs : s.fs.find? (fun e => e.1 == name) = some f)
    (hp : getProc s p = some pr) (fd : Int)
    (hfd : fd ∈ pr.fds.map (fun e => e.1)) :
    (openCall s p name).2 ≠ fd := by
  simp only [openCall, hfs, hp]
  intro h
  exact (smallestFreeFd_spec (pr.fds.map (fun e => e.1))).2 (h ▸ hfd)

/-- C7: descriptor independence.  Opening the same file name twice in one
process (both opens succeeding, so the file exists and the caller has a
record) yields two distinct handles, and a seek on the first handle to
any position k leaves the tell of the second handle unchanged. -/
theorem fd_independence (s : Kernel) (p : Nat) (name : String)
    (f : String × Nat) (pr : ProcessRecord) (k : Nat)
    (hfs : s.fs.find? (fun e => e.1 == name) = some f)
    (hp : getProc s p = some pr) :
    (openCall s p name).2 ≠ (openCall (openCall s p name).1 p name).2 ∧
    tell (seek (openCall (openCall s p name).1 p name).1 p
        (openCall s p name).2 k) p
      (openCall (openCall s p name).1 p name).2 =
    tell (openCall (openCall s p name).1 p name).1 p
      (openCall (openCall s p name).1 p name).2 := by
  have h1 : openCall s p name =
      (updateProc s p (fun q => { q with fds :=
          (smallestFreeFd (pr.fds.map (fun e => e.1)), ⟨name, f.2, 0⟩) :: q.fds }),
        smallestFreeFd (pr.fds.map (fun e => e.1))) := by
    simp only [openCall, hfs, hp]
  have hp1 : getProc (updateProc s p (fun q => { q with fds :=
        (smallestFreeFd (pr.fds.map (fun e => e.1)), ⟨name, f.2, 0⟩) :: q.fds })) p
      = some { pr with fds :=
        (smallestFreeFd (pr.fds.map (fun e => e.1)), ⟨name, f.2, 0⟩) :: pr.fds } :=
    getProc_updateProc_self s p (fun q => { q with fds :=
        (smallestFreeFd (pr.fds.map (fun e => e.1)), ⟨name, f.2, 0⟩) :: q.fds })
      (fun r => rfl) pr hp
  have hfs1 : (updateProc s p (fun q => { q with fds :=
        (smallestFreeFd (pr.fds.map (fun e => e.1)), ⟨name, f.2, 0⟩) :: q.fds })).fs.find?
        (fun e => e.1 == name) = some f := hfs
  have hnb : (openCall (updateProc s p (fun q => { q with fds :=
        (smallestFreeFd (pr.fds.map (fun e => e.1)), ⟨name, f.2, 0⟩) :: q.fds })) p
        name).2 ≠ smallestFreeFd (pr.fds.map (fun e => e.1)) :=
    openCall_success_ne _ p name f _ hfs1 hp1 _
      (show smallestFreeFd (pr.fds.map (fun e => e.1)) ∈
          smallestFreeFd (pr.fds.map (fun e => e.1)) ::
            pr.fds.map (fun e => e.1) from
        List.mem_cons_self _ _)
  constructor
  · simp only [h1]
    exact Ne.symm hnb
  · simp only [h1]
    exact tell_seek_frame _ p _ _ k (beq_eq_false_iff_ne.mpr hnb)

/-- Witness for C7 at a concrete input: opening the file a twice in
process 1 gives distinct handles, and a seek of the first handle to
position 5 leaves the tell of the second handle unchanged. -/
theorem fd_independence_witness :
    (openCall demoFs 1 "a").2 ≠ (openCall (openCall demoFs 1 "a").1 1 "a").2 ∧
    tell (seek (openCall (openCall demoFs 1 "a").1 1 "a").1 1
        (openCall demoFs 1 "a").2 5) 1
      (openCall (openCall demoFs 1 "a").1 1 "a").2 =
    tell (openCall (openCall demoFs 1 "a").1 1 "a").1 1
      (openCall (openCall demoFs 1 "a").1 1 "a").2 :=
  fd_independence demoFs 1 "a" ("a", 10) ⟨1, [], [], true, true, 0⟩ 5 rfl rfl
